import Mathlib

/-!
# Verification of `elem::js::Value` (src/runtime/elem/Value.h)

A shallow embedding of the dynamic JavaScript-like value type of the
Elementary runtime, together with proofs of its specification claims.

Modelling conventions:
* `Number` (C++ `double`) is modelled by its IEEE-754 value classes:
  NaN, signed infinity, or a finite value carried as a rational.
  `std::to_string(double)` is `printf "%f"`: the value rounded to six
  fixed decimal places (round half to even), which is computable on the
  rational payload.  The sign of a negative zero is not modelled.
* `Float32Array` (C++ `std::vector<float>`) is a list of the same
  `Number` class type: every `float` value is also a `double` value and
  `std::to_string(float)` formats it through the same `%f` path.
* `Object` (C++ `std::map<String, Value>`) is an association list kept
  in strictly increasing key order; `objInsert` models `std::map::insert`
  (keeps the existing entry on a duplicate key) and `objectOfList`
  models range construction (insert each pair in order).
* `Function` (C++ `std::function<Value(Array)>`) is an opaque handle to
  a host callable, modelled as an identifier; no claim invokes it.
* Fail-fast accessors (`std::get` on the wrong alternative throws
  `std::bad_variant_access`) are modelled as `Option`-returning
  functions where `none` is the fail-fast outcome.
-/

namespace ElemJS

/-- The value classes of a C++ `double` (`elem::js::Number`):
NaN, infinity with a sign, or a finite value given by its exact
rational magnitude. -/
inductive Number where
  | nan : Number
  | inf (neg : Bool) : Number
  | finite (q : ℚ) : Number
deriving DecidableEq, Repr

/-- Round the nonnegative rational `num / den` to the nearest natural
number, ties to even — the rounding `printf "%f"` applies when
shortening a binary value to a fixed number of decimal places. -/
def roundHalfEven (num den : ℕ) : ℕ :=
  let n := num / den
  let rem := num % den
  if 2 * rem < den then n
  else if den < 2 * rem then n + 1
  else if n % 2 = 0 then n else n + 1

/-- Zero-pad a natural number to six digits, for the fractional part of
`%f` output. -/
def padSixDigits (m : ℕ) : String :=
  let s := Nat.repr m
  String.mk (List.replicate (6 - s.length) '0') ++ s

/-- `std::to_string` on a `double` (`printf "%f"`): `"nan"`, `"inf"`,
`"-inf"`, or the value in fixed six-decimal notation. -/
def Number.toString : Number → String
  | .nan => "nan"
  | .inf false => "inf"
  | .inf true => "-inf"
  | .finite q =>
    let sign := if q.num < 0 then "-" else ""
    let scaled := roundHalfEven (q.num.natAbs * 1000000) q.den
    sign ++ Nat.repr (scaled / 1000000) ++ "." ++ padSixDigits (scaled % 1000000)

/-- `std::to_string` on a C++ `bool` (integral promotion: `"1"` / `"0"`),
used by the `Boolean` branch of `Value::toString`. -/
def boolToString (b : Bool) : String := if b then "1" else "0"

/-- `elem::js::Value`: the tagged union (`std::variant`) over
Undefined, Null, Boolean, Number, String, Object, Array, Float32Array
and Function (Value.h lines 241-252). -/
inductive Value where
  | undefined : Value
  | null : Value
  | boolean (b : Bool) : Value
  | number (n : Number) : Value
  | string (s : String) : Value
  | object (o : List (String × Value)) : Value
  | array (a : List Value) : Value
  | float32Array (f : List Number) : Value
  | function (fid : ℕ) : Value

/-- `Value::isUndefined` — `std::holds_alternative<Undefined>`. -/
def Value.isUndefined : Value → Bool
  | .undefined => true
  | _ => false

/-- `Value::isNull` — `std::holds_alternative<Null>`. -/
def Value.isNull : Value → Bool
  | .null => true
  | _ => false

/-- `Value::isBool` — `std::holds_alternative<Boolean>`. -/
def Value.isBool : Value → Bool
  | .boolean _ => true
  | _ => false

/-- `Value::isNumber` — `std::holds_alternative<Number>`. -/
def Value.isNumber : Value → Bool
  | .number _ => true
  | _ => false

/-- `Value::isString` — `std::holds_alternative<String>`. -/
def Value.isString : Value → Bool
  | .string _ => true
  | _ => false

/-- `Value::isArray` — `std::holds_alternative<Array>`. -/
def Value.isArray : Value → Bool
  | .array _ => true
  | _ => false

/-- `Value::isFloat32Array` — `std::holds_alternative<Float32Array>`. -/
def Value.isFloat32Array : Value → Bool
  | .float32Array _ => true
  | _ => false

/-- `Value::isObject` — `std::holds_alternative<Object>`. -/
def Value.isObject : Value → Bool
  | .object _ => true
  | _ => false

/-- `Value::isFunction` — `std::holds_alternative<Function>`. -/
def Value.isFunction : Value → Bool
  | .function _ => true
  | _ => false

/-- `Value::getArray` — `std::get<Array>(var)`; `none` models the
`std::bad_variant_access` fail-fast path. -/
def Value.getArray : Value → Option (List Value)
  | .array a => some a
  | _ => none

/-- `Value::getFloat32Array` — `std::get<Float32Array>(var)`. -/
def Value.getFloat32Array : Value → Option (List Number)
  | .float32Array f => some f
  | _ => none

/-- `Value::getObject` — `std::get<Object>(var)`. -/
def Value.getObject : Value → Option (List (String × Value))
  | .object o => some o
  | _ => none

/-- `Value::getFunction` — `std::get<Function>(var)`; yields the opaque
callable handle. -/
def Value.getFunction : Value → Option ℕ
  | .function fid => some fid
  | _ => none

/-- `Value::getNumber` — `std::get<Number>(var)`. -/
def Value.getNumber : Value → Option Number
  | .number n => some n
  | _ => none

/-- `Value::operator Boolean()` — `std::get<Boolean>(var)`. -/
def Value.castBoolean : Value → Option Bool
  | .boolean b => some b
  | _ => none

/-- `Value::operator Number()` — `std::get<Number>(var)`. -/
def Value.castNumber : Value → Option Number
  | .number n => some n
  | _ => none

/-- `Value::operator String()` — `std::get<String>(var)`. -/
def Value.castString : Value → Option String
  | .string s => some s
  | _ => none

/-- `Value::operator Array()` — `std::get<Array>(var)`. -/
def Value.castArray : Value → Option (List Value)
  | .array a => some a
  | _ => none

/-- The body streamed for an Array / Float32Array preview: the loop
`ss << e << ", "` over the selected elements (Value.h lines 180-181 and
198-199). -/
def seqBody : List String → String
  | [] => ""
  | e :: rest => e ++ ", " ++ seqBody rest

/-- `s.substr(0, s.size() - 2)`: `size()` is unsigned, so for `s = "["`
(the empty-container case) the count wraps around and `substr` clamps it
to the whole string; otherwise the last two bytes — always the final
`", "` separator — are dropped.  On the reachable inputs the last two
bytes are ASCII, so dropping two characters is dropping two bytes. -/
def substrDrop2 (s : String) : String :=
  if 2 ≤ s.length then String.mk (s.data.take (s.length - 2)) else s

/-- Shared tail of the Array and Float32Array branches of
`Value::toString` (Value.h lines 177-190 and 195-208): `elems` are the
rendered first `min 3 n` elements and `n` the container size. -/
def renderSeq (elems : List String) (n : ℕ) : String :=
  let ss := "[" ++ seqBody elems
  if 3 < n then ss ++ "...]"
  else substrDrop2 ss ++ "]"

mutual

/-- `Value::toString` (Value.h lines 147-236): the recursive diagnostic
renderer, one case per variant of the `std::variant` visitor.  The
Array branch renders only the first three elements; taking the first
three of the rendered list is the same strings in the same order. -/
def Value.toString : Value → String
  | .undefined => "undefined"
  | .null => "null"
  | .boolean b => boolToString b
  | .number n => Number.toString n
  | .string s => s
  | .object o => "\x7b\n" ++ renderEntries o ++ "\x7d\n"
  | .array a => renderSeq ((mapToString a).take 3) a.length
  | .float32Array f => renderSeq ((f.map Number.toString).take 3) f.length
  | .function _ => "[Object Function]"

/-- Element-wise rendering of an Array's contents, in index order. -/
def mapToString : List Value → List String
  | [] => []
  | v :: vs => v.toString :: mapToString vs

/-- The Object branch loop (Value.h lines 216-219): one indented
`key: value` line per entry, in the map's iteration order. -/
def renderEntries : List (String × Value) → String
  | [] => ""
  | (k, v) :: rest => "    " ++ k ++ ": " ++ v.toString ++ "\n" ++ renderEntries rest

end

/-- `Value::toStringVector` (Value.h lines 132-144): render each element
of an Array in order; any other variant yields the empty vector. -/
def Value.toStringVector : Value → List String
  | .array a => a.map Value.toString
  | _ => []

/-- The `Value(std::vector<std::string> const&)` constructor (Value.h
lines 58-64): an Array of String-valued Values, in order. -/
def Value.ofStrings (v : List String) : Value :=
  .array (v.map Value.string)

/-- First-match association lookup: `o.count(k) > 0` / `o.at(k)` on a
`std::map` (which never holds a duplicate key). -/
def lookupKey (o : List (String × Value)) (k : String) : Option Value :=
  match o with
  | [] => none
  | (k', v) :: rest => if k' = k then some v else lookupKey rest k

/-- `Value::getWithDefault<T>(k, d)` (Value.h lines 117-128): fetch the
Object (fail fast when not Object-typed), and if `k` is present convert
the stored Value through `T`'s converting constructor — modelled by
`conv`, the `Option`-returning cast of the instantiating type — else
return the default.  `none` models a throw. -/
def Value.getWithDefault (conv : Value → Option α) (v : Value) (k : String)
    (d : α) : Option α :=
  match v.getObject with
  | none => none
  | some o =>
    match lookupKey o k with
    | some w => conv w
    | none => some d

/-- Lexicographic comparison of character lists by code point —
`std::string::operator<` compares byte-wise, and UTF-8 byte order
coincides with code-point order. -/
def strLtb : List Char → List Char → Bool
  | _, [] => false
  | [], _ :: _ => true
  | a :: as, b :: bs =>
    if a.toNat < b.toNat then true
    else if a.toNat = b.toNat then strLtb as bs
    else false

/-- `std::less<String>`: strict lexicographic order on strings, the key
order of the `Object` map (`std::map<String, Value>`). -/
def strLt (a b : String) : Bool := strLtb a.data b.data

/-- `std::map::insert` of `(k, v)` into an association list sorted by
key: insert at the ordered position, keeping the existing entry when
the key is already present. -/
def objInsert (k : String) (v : Value) : List (String × Value) → List (String × Value)
  | [] => [(k, v)]
  | (k', v') :: rest =>
    if strLt k k' then (k, v) :: (k', v') :: rest
    else if k = k' then (k', v') :: rest
    else (k', v') :: objInsert k v rest

/-- `std::map` construction from a sequence of key/value pairs: insert
each in order (the first occurrence of a duplicate key wins). -/
def objectOfList (l : List (String × Value)) : List (String × Value) :=
  l.foldl (fun o kv => objInsert kv.1 kv.2 o) []

/-- Concatenation of a list of strings, used to state the Object
rendering as one line per entry. -/
def joinAll : List String → String
  | [] => ""
  | s :: rest => s ++ joinAll rest

theorem mapToString_eq (a : List Value) : mapToString a = a.map Value.toString := by
  induction a with
  | nil => rfl
  | cons v vs ih => simp [mapToString, ih]

theorem renderEntries_eq (o : List (String × Value)) :
    renderEntries o
      = joinAll (o.map fun p => "    " ++ p.1 ++ ": " ++ p.2.toString ++ "\n") := by
  induction o with
  | nil => rfl
  | cons p rest ih => cases p; simp [renderEntries, joinAll, ih]

theorem intercalate_go_cons (s : String) (r : List String) :
    ∀ e f : String, String.intercalate.go e s (f :: r)
      = e ++ s ++ String.intercalate.go f s r := by
  induction r with
  | nil => intro e f; rfl
  | cons g r' ih =>
    intro e f
    show String.intercalate.go (e ++ s ++ f) s (g :: r') = _
    rw [ih (e ++ s ++ f) g, ih f g]
    simp [String.append_assoc]

theorem intercalate_cons_cons (s e f : String) (r : List String) :
    String.intercalate s (e :: f :: r)
      = e ++ s ++ String.intercalate s (f :: r) := by
  show String.intercalate.go e s (f :: r) = _
  rw [intercalate_go_cons s r e f]
  rfl

theorem substrDrop2_append (u : String) : substrDrop2 (u ++ ", ") = u := by
  have h2 : (u ++ ", ").length = u.length + 2 := by
    rw [String.length_append]
    rfl
  unfold substrDrop2
  rw [if_pos (by omega)]
  apply String.ext
  show ((u ++ ", ").data.take ((u ++ ", ").length - 2)) = u.data
  rw [h2, String.data_append]
  show (u.data ++ [',', ' ']).take (u.length + 2 - 2) = u.data
  have hl : u.length + 2 - 2 = u.data.length := by
    have hu : u.length = u.data.length := rfl
    omega
  rw [hl, List.take_left]

theorem seqBody_cons_eq (e : String) (r : List String) :
    ∀ p : String, p ++ seqBody (e :: r)
      = (p ++ String.intercalate ", " (e :: r)) ++ ", " := by
  induction r generalizing e with
  | nil =>
    intro p
    show p ++ (e ++ ", " ++ "") = (p ++ e) ++ ", "
    rw [String.append_empty, String.append_assoc]
  | cons f r' ih =>
    intro p
    have h1 : seqBody (e :: f :: r') = (e ++ ", ") ++ seqBody (f :: r') := rfl
    rw [h1, ← String.append_assoc, ih f (p ++ (e ++ ", ")),
      intercalate_cons_cons]
    simp [String.append_assoc]

/-- C1 counterexample: a four-element Array renders as
`"[a, b, c, ...]"` — the ellipsis marker is followed by a closing
bracket, so the output is not the claimed bracket-less form
`"[a, b, c, ..."`. -/
theorem arrayOverflow_counterexample :
    (Value.array [Value.string "a", Value.string "b", Value.string "c",
        Value.string "d"]).toString = "[a, b, c, ...]"
    ∧ (Value.array [Value.string "a", Value.string "b", Value.string "c",
        Value.string "d"]).toString ≠ "[a, b, c, ..." := by
  constructor
  · decide
  · decide

/-- C1 (amended): for every Array-typed or Float32Array-typed Value
holding more than three elements, `toString` renders only the first
three elements joined with `", "`, then the separator, the ellipsis
marker, and a closing bracket: the form is `[e0, e1, e2, ...]` (the
code appends `"...]"`, bracket included). -/
theorem arrayOverflow_toString :
    (∀ a : List Value, 3 < a.length →
      (Value.array a).toString
        = "[" ++ String.intercalate ", " ((a.take 3).map Value.toString)
            ++ ", ...]")
    ∧ (∀ f : List Number, 3 < f.length →
      (Value.float32Array f).toString
        = "[" ++ String.intercalate ", " ((f.take 3).map Number.toString)
            ++ ", ...]") := by
  constructor
  · intro a ha
    have h3 : (a.take 3).length = 3 := by
      rw [List.length_take]
      omega
    obtain ⟨x, y, z, hxyz⟩ := List.length_eq_three.mp h3
    show renderSeq ((mapToString a).take 3) a.length = _
    rw [mapToString_eq, ← List.map_take, hxyz]
    show (if 3 < a.length
        then ("[" ++ seqBody (List.map Value.toString [x, y, z])) ++ "...]"
        else substrDrop2 ("[" ++ seqBody (List.map Value.toString [x, y, z]))
          ++ "]") = _
    rw [if_pos ha]
    simp only [List.map]
    rw [seqBody_cons_eq, String.append_assoc]
    rfl
  · intro f hf
    have h3 : (f.take 3).length = 3 := by
      rw [List.length_take]
      omega
    obtain ⟨x, y, z, hxyz⟩ := List.length_eq_three.mp h3
    show renderSeq ((f.map Number.toString).take 3) f.length = _
    rw [← List.map_take, hxyz]
    show (if 3 < f.length
        then ("[" ++ seqBody (List.map Number.toString [x, y, z])) ++ "...]"
        else substrDrop2 ("[" ++ seqBody (List.map Number.toString [x, y, z]))
          ++ "]") = _
    rw [if_pos hf]
    simp only [List.map]
    rw [seqBody_cons_eq, String.append_assoc]
    rfl

/-- C1 witness: the five-element Array `[1,2,3,4,5]` of Numbers renders
as `"[1.000000, 2.000000, 3.000000, ...]"`, and a four-element
Float32Array renders its first three elements the same way. -/
theorem arrayOverflow_witness :
    (Value.array [Value.number (Number.finite 1), Value.number (Number.finite 2),
        Value.number (Number.finite 3), Value.number (Number.finite 4),
        Value.number (Number.finite 5)]).toString
      = "[1.000000, 2.000000, 3.000000, ...]"
    ∧ (Value.float32Array [Number.finite 1, Number.finite 2, Number.finite 3,
        Number.finite 4]).toString
      = "[1.000000, 2.000000, 3.000000, ...]" := by
  constructor
  · exact ((arrayOverflow_toString.1
      [Value.number (Number.finite 1), Value.number (Number.finite 2),
        Value.number (Number.finite 3), Value.number (Number.finite 4),
        Value.number (Number.finite 5)] (by decide))).trans (by decide)
  · exact ((arrayOverflow_toString.2
      [Number.finite 1, Number.finite 2, Number.finite 3, Number.finite 4]
      (by decide))).trans (by decide)

/-- C2 counterexample: the Array `[1,2,3]` of Numbers renders as
`"[1.000000, 2.000000, 3.000000]"` (each Number through
`std::to_string`'s fixed six-decimal form), not as the claimed
`"[1, 2, 3]"`. -/
theorem arraySmall_counterexample :
    (Value.array [Value.number (Number.finite 1), Value.number (Number.finite 2),
        Value.number (Number.finite 3)]).toString
      = "[1.000000, 2.000000, 3.000000]"
    ∧ (Value.array [Value.number (Number.finite 1), Value.number (Number.finite 2),
        Value.number (Number.finite 3)]).toString ≠ "[1, 2, 3]" := by
  constructor
  · decide
  · decide

/-- C2 (amended): for every Array-typed Value holding three or fewer
elements, `toString` renders exactly that many elements joined with
`", "`, wrapped in square brackets with a proper closing bracket and no
trailing separator; in particular the Array `[1,2,3]` of Numbers
renders as `"[1.000000, 2.000000, 3.000000]"` (Numbers render in the
fixed six-decimal form of `std::to_string`). -/
theorem arraySmall_toString (a : List Value) (h : a.length ≤ 3) :
    (Value.array a).toString
      = "[" ++ String.intercalate ", " (a.map Value.toString) ++ "]"
    ∧ (Value.array [Value.number (Number.finite 1), Value.number (Number.finite 2),
        Value.number (Number.finite 3)]).toString
      = "[1.000000, 2.000000, 3.000000]" := by
  constructor
  · show renderSeq ((mapToString a).take 3) a.length = _
    rw [mapToString_eq,
      List.take_of_length_le (by rw [List.length_map]; exact h)]
    show (if 3 < a.length
        then ("[" ++ seqBody (a.map Value.toString)) ++ "...]"
        else substrDrop2 ("[" ++ seqBody (a.map Value.toString)) ++ "]") = _
    rw [if_neg (by omega)]
    cases ha : a.map Value.toString with
    | nil => decide
    | cons e r =>
      rw [seqBody_cons_eq e r "[", substrDrop2_append]
  · decide

/-- C2 witness: the two-element Array of Strings `["a", "b"]` satisfies
the length bound and renders as `"[a, b]"`. -/
theorem arraySmall_witness :
    ([Value.string "a", Value.string "b"] : List Value).length ≤ 3
    ∧ (Value.array [Value.string "a", Value.string "b"]).toString
        = "[a, b]" := by
  constructor
  · decide
  · exact ((arraySmall_toString [Value.string "a", Value.string "b"]
      (by decide)).1).trans (by decide)

/-- C3: every Value, however constructed, satisfies exactly one of the
nine type-check predicates — they are mutually exclusive and
collectively exhaustive. -/
theorem predicates_exclusive_exhaustive (v : Value) :
    ([v.isUndefined, v.isNull, v.isBool, v.isNumber, v.isString, v.isArray,
      v.isFloat32Array, v.isObject, v.isFunction].count true) = 1 := by
  cases v <;> rfl

/-- C4: on an Object-typed Value, `getWithDefault k d` returns the
stored value for `k` converted through the instantiating type's cast
(fail-fast conversion `conv`) when `k` is present, and returns the
default `d` with no failure when `k` is absent. -/
theorem getWithDefault_spec {α : Type} (conv : Value → Option α)
    (o : List (String × Value)) (k : String) (d : α) :
    (∀ w, lookupKey o k = some w →
        Value.getWithDefault conv (Value.object o) k d = conv w)
    ∧ (lookupKey o k = none →
        Value.getWithDefault conv (Value.object o) k d = some d) := by
  constructor
  · intro w hw
    simp [Value.getWithDefault, Value.getObject, hw]
  · intro hn
    simp [Value.getWithDefault, Value.getObject, hn]

/-- C4 witness: an Object without key `"x"` yields the default `5`; an
Object with `"x" ↦ 42` yields `42`, both through `getWithDefault`
instantiated at `Number`. -/
theorem getWithDefault_witness :
    Value.getWithDefault Value.castNumber
        (Value.object (objectOfList [("y", Value.number (Number.finite 1))]))
        "x" (Number.finite 5) = some (Number.finite 5)
    ∧ Value.getWithDefault Value.castNumber
        (Value.object (objectOfList [("x", Value.number (Number.finite 42))]))
        "x" (Number.finite 5) = some (Number.finite 42) := by
  constructor
  · exact (getWithDefault_spec Value.castNumber
      (objectOfList [("y", Value.number (Number.finite 1))])
      "x" (Number.finite 5)).2 rfl
  · exact (getWithDefault_spec Value.castNumber
      (objectOfList [("x", Value.number (Number.finite 42))])
      "x" (Number.finite 5)).1 (Value.number (Number.finite 42)) rfl

/-- C5: `toStringVector` on an Array-typed Value is the element-wise
rendering through `toString` in index order, and on any non-Array Value
it is the empty sequence rather than a failure. -/
theorem toStringVector_spec (v : Value) :
    (∀ a, v = Value.array a → v.toStringVector = a.map Value.toString)
    ∧ (v.isArray = false → v.toStringVector = []) := by
  constructor
  · rintro a rfl
    rfl
  · intro h
    cases v <;> simp_all [Value.isArray, Value.toStringVector]

/-- C5 witness: a Number-valued Value yields the empty sequence and the
Array `["a", "b"]` yields the ordered sequence `["a", "b"]`. -/
theorem toStringVector_witness :
    (Value.number (Number.finite 1)).toStringVector = []
    ∧ (Value.array [Value.string "a", Value.string "b"]).toStringVector
        = ["a", "b"] := by
  constructor
  · exact (toStringVector_spec (Value.number (Number.finite 1))).2 rfl
  · exact ((toStringVector_spec
      (Value.array [Value.string "a", Value.string "b"])).1
      [Value.string "a", Value.string "b"] rfl).trans (by decide)

/-- C7: every typed accessor and every implicit scalar cast applied to
a Value whose active variant does not match fails fast (modelled by
`none`, the `std::bad_variant_access` outcome) instead of returning a
default or coercing. -/
theorem wrongVariantAccess_fails (v : Value) :
    (v.isArray = false → v.getArray = none ∧ v.castArray = none)
    ∧ (v.isFloat32Array = false → v.getFloat32Array = none)
    ∧ (v.isObject = false → v.getObject = none)
    ∧ (v.isFunction = false → v.getFunction = none)
    ∧ (v.isNumber = false → v.getNumber = none ∧ v.castNumber = none)
    ∧ (v.isBool = false → v.castBoolean = none)
    ∧ (v.isString = false → v.castString = none) := by
  cases v <;>
    simp [Value.isArray, Value.isFloat32Array, Value.isObject, Value.isFunction,
      Value.isNumber, Value.isBool, Value.isString, Value.getArray,
      Value.castArray, Value.getFloat32Array, Value.getObject,
      Value.getFunction, Value.getNumber, Value.castNumber,
      Value.castBoolean, Value.castString]

/-- C7 witness: calling the Number accessor, the Number cast and the
Array accessor on a String-valued Value all fail fast. -/
theorem wrongVariantAccess_witness :
    (Value.string "hi").getNumber = none
    ∧ (Value.string "hi").castNumber = none
    ∧ (Value.string "hi").getArray = none := by
  have h := wrongVariantAccess_fails (Value.string "hi")
  exact ⟨(h.2.2.2.2.1 rfl).1, (h.2.2.2.2.1 rfl).2, (h.1 rfl).1⟩

/-- C8: `toString` is total — every Value of every variant, including
Number values equal to NaN or positive/negative infinity, renders to
some string (NaN and the infinities render through the same
`std::to_string` path as every other Number). -/
theorem toString_total :
    (∀ v : Value, ∃ s : String, v.toString = s)
    ∧ (Value.number Number.nan).toString = "nan"
    ∧ (Value.number (Number.inf false)).toString = "inf"
    ∧ (Value.number (Number.inf true)).toString = "-inf" :=
  ⟨fun v => ⟨v.toString, rfl⟩, rfl, rfl, rfl⟩

theorem strLtb_asymm : ∀ a b : List Char, strLtb a b = true → strLtb b a = false := by
  intro a
  induction a with
  | nil =>
    intro b h
    cases b with
    | nil => simp [strLtb] at h
    | cons y ys => simp [strLtb]
  | cons x xs ih =>
    intro b h
    cases b with
    | nil => simp [strLtb] at h
    | cons y ys =>
      simp only [strLtb] at h ⊢
      by_cases h1 : x.toNat < y.toNat
      · rw [if_neg (by omega), if_neg (by omega)]
      · rw [if_neg h1] at h
        by_cases h2 : x.toNat = y.toNat
        · rw [if_pos h2] at h
          rw [if_neg (by omega), if_pos (by omega)]
          exact ih ys h
        · rw [if_neg h2] at h
          simp at h

theorem strLtb_eq_of_not_lt :
    ∀ a b : List Char, strLtb a b = false → strLtb b a = false → a = b := by
  intro a
  induction a with
  | nil =>
    intro b h h'
    cases b with
    | nil => rfl
    | cons y ys => simp [strLtb] at h
  | cons x xs ih =>
    intro b h h'
    cases b with
    | nil => simp [strLtb] at h'
    | cons y ys =>
      simp only [strLtb] at h h'
      by_cases h1 : x.toNat < y.toNat
      · rw [if_pos h1] at h
        simp at h
      · by_cases h2 : x.toNat = y.toNat
        · rw [if_neg h1, if_pos h2] at h
          rw [if_neg (by omega), if_pos (by omega)] at h'
          have hxy : x = y := Char.ext (by
            have hv : x.val.toNat = y.val.toNat := h2
            exact UInt32.ext hv)
          rw [hxy, ih ys h h']
        · rw [if_pos (by omega)] at h'
          simp at h'

theorem strLtb_trans :
    ∀ a b c : List Char, strLtb a b = true → strLtb b c = true →
      strLtb a c = true := by
  intro a
  induction a with
  | nil =>
    intro b c h1 h2
    cases b with
    | nil => simp [strLtb] at h1
    | cons y ys =>
      cases c with
      | nil => simp [strLtb] at h2
      | cons z zs => simp [strLtb]
  | cons x xs ih =>
    intro b c h1 h2
    cases b with
    | nil => simp [strLtb] at h1
    | cons y ys =>
      cases c with
      | nil => simp [strLtb] at h2
      | cons z zs =>
        simp only [strLtb] at h1 h2 ⊢
        by_cases hxy : x.toNat < y.toNat
        · by_cases hyz : y.toNat < z.toNat
          · rw [if_pos (by omega)]
          · by_cases hyz2 : y.toNat = z.toNat
            · rw [if_pos (by omega)]
            · rw [if_neg hyz, if_neg hyz2] at h2
              simp at h2
        · by_cases hxy2 : x.toNat = y.toNat
          · rw [if_neg hxy, if_pos hxy2] at h1
            by_cases hyz : y.toNat < z.toNat
            · rw [if_pos (by omega)]
            · by_cases hyz2 : y.toNat = z.toNat
              · rw [if_neg (by omega), if_pos (by omega)]
                rw [if_neg hyz, if_pos hyz2] at h2
                exact ih ys zs h1 h2
              · rw [if_neg hyz, if_neg hyz2] at h2
                simp at h2
          · rw [if_neg hxy, if_neg hxy2] at h1
            simp at h1

theorem strLt_asymm {a b : String} (h : strLt a b = true) : strLt b a = false :=
  strLtb_asymm a.data b.data h

theorem strLt_total {a b : String} (h1 : strLt a b = false)
    (h2 : strLt b a = false) : a = b :=
  String.ext (strLtb_eq_of_not_lt a.data b.data h1 h2)

theorem strLt_trans {a b c : String} (h1 : strLt a b = true)
    (h2 : strLt b c = true) : strLt a c = true :=
  strLtb_trans a.data b.data c.data h1 h2

theorem strLt_flip {a b : String} (h1 : strLt a b = false) (h2 : a ≠ b) :
    strLt b a = true := by
  cases h : strLt b a with
  | true => rfl
  | false => exact absurd (strLt_total h1 h) h2

/-- Strict key order on map entries — the order `std::map` keeps its
entries in. -/
def keyLt (p q : String × Value) : Prop := strLt p.1 q.1 = true

instance : IsAntisymm (String × Value) keyLt where
  antisymm p q h h' := absurd h' (by simp [keyLt, strLt_asymm h])

theorem objInsert_subset (k : String) (v : Value) :
    ∀ o : List (String × Value), ∀ b ∈ objInsert k v o, b = (k, v) ∨ b ∈ o := by
  intro o
  induction o with
  | nil => intro b hb; simp [objInsert] at hb; left; exact hb
  | cons p rest ih =>
    intro b hb
    obtain ⟨k', v'⟩ := p
    simp only [objInsert] at hb
    split_ifs at hb with h1 h2
    · rcases List.mem_cons.mp hb with rfl | hb'
      · left; rfl
      · right; exact hb'
    · right; exact hb
    · rcases List.mem_cons.mp hb with rfl | hb'
      · right; exact List.mem_cons_self _ _
      · rcases ih b hb' with rfl | hb''
        · left; rfl
        · right; exact List.mem_cons_of_mem _ hb''

theorem objInsert_sorted (k : String) (v : Value) :
    ∀ o : List (String × Value), List.Sorted keyLt o →
      List.Sorted keyLt (objInsert k v o) := by
  intro o
  induction o with
  | nil => intro _; simp [objInsert]
  | cons p rest ih =>
    intro hs
    obtain ⟨k', v'⟩ := p
    rw [List.sorted_cons] at hs
    simp only [objInsert]
    split_ifs with h1 h2
    · rw [List.sorted_cons]
      refine ⟨fun b hb => ?_, List.sorted_cons.mpr hs⟩
      rcases List.mem_cons.mp hb with rfl | hb'
      · exact h1
      · exact strLt_trans h1 (hs.1 b hb')
    · exact List.sorted_cons.mpr hs
    · rw [List.sorted_cons]
      refine ⟨fun b hb => ?_, ih hs.2⟩
      have h1' : strLt k k' = false := by
        revert h1
        cases strLt k k' <;> simp
      rcases objInsert_subset k v rest b hb with rfl | hb'
      · exact strLt_flip h1' (fun hkk => h2 hkk)
      · exact hs.1 b hb'

theorem objInsert_perm (k : String) (v : Value) :
    ∀ o : List (String × Value), k ∉ o.map Prod.fst →
      (objInsert k v o).Perm ((k, v) :: o) := by
  intro o
  induction o with
  | nil => intro _; exact List.Perm.refl _
  | cons p rest ih =>
    intro hk
    obtain ⟨k', v'⟩ := p
    simp only [List.map, List.mem_cons, not_or] at hk
    simp only [objInsert]
    split_ifs with h1 h2
    · exact List.Perm.refl _
    · exact absurd h2 hk.1
    · exact ((ih hk.2).cons (k', v')).trans (List.Perm.swap (k, v) (k', v') rest)

theorem foldl_objInsert_sorted (l : List (String × Value)) :
    ∀ acc, List.Sorted keyLt acc →
      List.Sorted keyLt (l.foldl (fun o kv => objInsert kv.1 kv.2 o) acc) := by
  induction l with
  | nil => intro acc h; exact h
  | cons kv t ih => intro acc h; exact ih _ (objInsert_sorted kv.1 kv.2 acc h)

theorem objectOfList_sorted (l : List (String × Value)) :
    List.Sorted keyLt (objectOfList l) :=
  foldl_objInsert_sorted l [] (by simp)

theorem foldl_objInsert_perm (l : List (String × Value)) :
    ∀ acc, ((acc ++ l).map Prod.fst).Nodup →
      (l.foldl (fun o kv => objInsert kv.1 kv.2 o) acc).Perm (acc ++ l) := by
  induction l with
  | nil => intro acc _; simp
  | cons kv t ih =>
    intro acc h
    obtain ⟨k, v⟩ := kv
    have hk : k ∉ acc.map Prod.fst := by
      intro hmem
      rw [List.map_append, List.nodup_append] at h
      exact h.2.2 hmem (by simp)
    have hperm1 : (objInsert k v acc).Perm ((k, v) :: acc) :=
      objInsert_perm k v acc hk
    have hperm2 : ((objInsert k v acc) ++ t).Perm (acc ++ (k, v) :: t) :=
      (hperm1.append_right t).trans List.perm_middle.symm
    have hnd2 : (((objInsert k v acc) ++ t).map Prod.fst).Nodup :=
      ((hperm2.map Prod.fst).nodup_iff).mpr h
    exact (ih (objInsert k v acc) hnd2).trans hperm2

theorem objectOfList_perm (l : List (String × Value))
    (h : (l.map Prod.fst).Nodup) : (objectOfList l).Perm l := by
  have hl := foldl_objInsert_perm l [] (by simpa using h)
  simpa [objectOfList] using hl

/-- C6: an Object built by inserting any sequence of distinct-keyed
entries renders as a multi-line block — opening brace line, one
indented `key: value` line per entry, closing brace — with the entries
in strictly increasing (lexicographic) key order, independent of the
insertion order. -/
theorem object_toString_sorted (l lp : List (String × Value))
    (hnd : (l.map Prod.fst).Nodup) (hp : l.Perm lp) :
    (Value.object (objectOfList l)).toString
      = "\x7b\n" ++ joinAll ((objectOfList l).map
          (fun p => "    " ++ p.1 ++ ": " ++ p.2.toString ++ "\n")) ++ "\x7d\n"
    ∧ List.Sorted keyLt (objectOfList l)
    ∧ (objectOfList l).Perm l
    ∧ objectOfList lp = objectOfList l := by
  have hsl := objectOfList_sorted l
  have hpl := objectOfList_perm l hnd
  have hndp : (lp.map Prod.fst).Nodup := ((hp.map Prod.fst).nodup_iff).mp hnd
  have hplp := objectOfList_perm lp hndp
  refine ⟨?_, hsl, hpl, ?_⟩
  · show "\x7b\n" ++ renderEntries (objectOfList l) ++ "\x7d\n" = _
    rw [renderEntries_eq]
  · exact List.eq_of_perm_of_sorted
      (hplp.trans (hp.symm.trans hpl.symm)) (objectOfList_sorted lp) hsl

/-- C6 witness: the Object `{"b": 2, "a": 1}` renders with `"a"` before
`"b"`, and constructing it in the opposite insertion order yields the
identical map. -/
theorem object_toString_witness :
    (Value.object (objectOfList
        [("b", Value.number (Number.finite 2)),
          ("a", Value.number (Number.finite 1))])).toString
      = "\x7b\n    a: 1.000000\n    b: 2.000000\n\x7d\n"
    ∧ objectOfList [("a", Value.number (Number.finite 1)),
        ("b", Value.number (Number.finite 2))]
      = objectOfList [("b", Value.number (Number.finite 2)),
        ("a", Value.number (Number.finite 1))] := by
  have h := object_toString_sorted
    [("b", Value.number (Number.finite 2)), ("a", Value.number (Number.finite 1))]
    [("a", Value.number (Number.finite 1)), ("b", Value.number (Number.finite 2))]
    (by decide)
    (List.Perm.swap ("a", Value.number (Number.finite 1))
      ("b", Value.number (Number.finite 2)) [])
  exact ⟨h.1.trans (by decide), h.2.2.2⟩

/-- C10: constructing a Value from a plain ordered list of strings and
extracting it back through `toStringVector` returns exactly the same
strings in the same order. -/
theorem ofStrings_roundtrip (v : List String) :
    (Value.ofStrings v).toStringVector = v := by
  show (v.map Value.string).map Value.toString = v
  rw [List.map_map]
  have h : (Value.toString ∘ Value.string) = id := funext fun s => rfl
  rw [h, List.map_id]

end ElemJS
